import Mathlib

/-!
Shallow embedding of the aufs write-dir resolver, copy-up driver, pin
manager, permission check and VFS link shim, translated from
`fs/aufs/i_op.c`, `fs/aufs/vfsub.h` and the vfsub/super portions of the
excerpt.  External kernel services (the per-branch filesystem's own
permission hook, the create policies, `au_cpup_dirs`, `au_lkup_neg`,
locking primitives, ...) are represented by explicit oracle parameters
or, where noted, modelled from the specification.
-/

/-! ## Error numbers (from errno, as used by the C code) -/

def EPERM : Int := 1
def ECHILD : Int := 10
def EACCES : Int := 13
def EBUSY : Int := 16
def EROFS : Int := 30
def EMLINK : Int := 31
def ENAMETOOLONG : Int := 36

/-- Modelled from the spec: `au_busy_or_stale` (not part of the excerpt)
produces the "busy/stale" error condition of section 7; we model it as the
fixed errno `-EBUSY`. -/
def au_busy_or_stale : Int := -EBUSY

/-! ## Permission check model (`aufs_permission`, i_op.c lines 61-138)

The inode's file-type class: `special` stands for the character/block
device, fifo and socket modes recognised by the kernel's `special_file`
macro. -/

inductive FType where
  | dir
  | reg
  | lnk
  | special
deriving DecidableEq

/-- The kernel `special_file(mode)` test. -/
def special_file (t : FType) : Bool := t == FType.special

/-- A lower (branch) inode: only its file-type class matters here. -/
structure HIn where
  ftype : FType
deriving DecidableEq

/-- One branch of the union, as consulted by `aufs_permission`:
`rdonly` is `au_br_rdonly(br)`. -/
structure PBranch where
  rdonly : Bool

/-- The branch table of the super block (`au_sbr`). -/
structure PSb where
  br : Nat → PBranch

/-- The aufs inode as read by `aufs_permission`: its own file type,
its existence range `[ibtop, ibbot]` (`au_ibtop`/`au_ibbot`) and the
per-branch lower inode (`au_h_iptr`). -/
structure AuInode where
  ftype : FType
  ibtop : Nat
  ibbot : Nat
  hinode : Nat → Option HIn

/-- The permission mask bits used by `aufs_permission`. -/
structure Mask where
  may_read : Bool
  may_write : Bool
  may_append : Bool
  may_exec : Bool
  may_not_block : Bool

/-- Oracle for `h_permission(h_inode, mask, &br->br_path, br->br_perm)`:
the branch filesystem's own permission verdict at a given branch index,
for the fixed inode and mask of the call (0 = granted, otherwise a
negative errno). -/
structure PermEnv where
  hperm : Nat → Int

/-- Lock-acquisition events of `aufs_permission`
(`si_read_lock` / `ii_read_lock_child`). -/
inductive PermEv where
  | evSiReadLock
  | evIiReadLock
deriving DecidableEq

/-- The downward scan of `aufs_permission` (i_op.c lines 108-113):
starting at `bindex` and walking toward index 0, return 0 as soon as a
non-readonly branch is found, `-EROFS` if none is. -/
def upperWritable (sb : PSb) : Nat → Int
  | 0 => if !(sb.br 0).rdonly then 0 else -EROFS
  | b + 1 => if !(sb.br (b + 1)).rdonly then 0 else upperWritable sb b

/-- The "non-write to dir" loop of `aufs_permission` (i_op.c lines
119-132), running `fuel` iterations upward from branch `b`: a present
lower inode that is not a directory yields the busy/stale error, an
`h_permission` failure stops the loop with that error. -/
def dirPermLoop (env : PermEnv) (inode : AuInode) : Nat → Nat → Int
  | _, 0 => 0
  | b, f + 1 =>
    match inode.hinode b with
    | none => dirPermLoop env inode (b + 1) f
    | some h =>
      if h.ftype != FType.dir then au_busy_or_stale
      else if env.hperm b = 0 then dirPermLoop env inode (b + 1) f
      else env.hperm b

/-- `aufs_permission` (i_op.c lines 61-138).  Returns the errno result
together with the list of locks acquired before producing it. -/
def aufs_permission (env : PermEnv) (sb : PSb) (inode : AuInode) (mask : Mask) :
    Int × List PermEv :=
  if mask.may_not_block then (-ECHILD, [])
  else
    let isdir := inode.ftype == FType.dir
    let write_mask := mask.may_write || mask.may_append
    let tr := [PermEv.evSiReadLock, PermEv.evIiReadLock]
    if !isdir || write_mask then
      match inode.hinode inode.ibtop with
      | none => (au_busy_or_stale, tr)
      | some h =>
        if h.ftype != inode.ftype then (au_busy_or_stale, tr)
        else
          let err := env.hperm inode.ibtop
          if write_mask && (err == 0) && !special_file h.ftype then
            (upperWritable sb inode.ibtop, tr)
          else (err, tr)
    else
      (dirPermLoop env inode inode.ibtop (inode.ibbot + 1 - inode.ibtop), tr)

/-! ## Lookup guard model (`aufs_lookup`, i_op.c lines 142-227) -/

/-- Modelled from the spec: the maximum name length accepted by aufs
(`AUFS_MAX_NAMELEN`, defined outside the excerpt; the kernel's NAME_MAX). -/
def AUFS_MAX_NAMELEN : Nat := 255

/-- Oracles for the external services `aufs_lookup` delegates to:
`si_read_lock`, `au_di_init`, `au_alive_dir`, `au_digen_test`,
`au_lkup_dentry` (returning `npositive` or a negative errno) and
`au_new_inode`. -/
structure LkEnv where
  siLockErr : Int
  diInitErr : Int
  aliveErr : Int
  digenErr : Int
  lkupRes : Int
  newInodeErr : Int

/-- Lock/state events of `aufs_lookup`, in acquisition order. -/
inductive LkEv where
  | evSiLock
  | evDiInit
  | evDiLockParent
  | evLkupDentry
  | evNewInode
deriving DecidableEq

/-- `aufs_lookup` (i_op.c lines 142-227), reduced to its error plumbing:
the returned errno (0 for success) and the ordered list of locks taken
and union state read. -/
def aufs_lookup (env : LkEnv) (lookup_rcu : Bool) (nameLen : Nat) :
    Int × List LkEv :=
  if lookup_rcu then (-ECHILD, [])
  else if nameLen > AUFS_MAX_NAMELEN then (-ENAMETOOLONG, [])
  else if env.siLockErr != 0 then (env.siLockErr, [])
  else if env.diInitErr != 0 then (env.diInitErr, [LkEv.evSiLock, LkEv.evDiInit])
  else
    let tr := [LkEv.evSiLock, LkEv.evDiInit, LkEv.evDiLockParent]
    let err := if env.aliveErr != 0 then env.aliveErr
               else if env.digenErr != 0 then env.digenErr
               else env.lkupRes
    let tr := tr ++ (if env.aliveErr = 0 && env.digenErr = 0
                     then [LkEv.evLkupDentry] else [])
    if err < 0 then (err, tr)
    else if 0 < err then
      if env.newInodeErr != 0 then (env.newInodeErr, tr ++ [LkEv.evNewInode])
      else (0, tr ++ [LkEv.evNewInode])
    else (0, tr)

/-! ## `vfsub_link` and `au_test_nlink` (vfsub excerpt) -/

/-- `UINT_MAX` of the C code. -/
def UINT_MAX : Nat := 2 ^ 32 - 1

/-- Oracles for the externals of `vfsub_link`:
`au_test_fs_no_limit_nlink(sb)`, `security_path_link` and `vfs_link`. -/
structure LinkEnv where
  noLimitNlink : Bool
  securityErr : Int
  vfsLinkErr : Int

/-- Externally visible actions of `vfsub_link`, in invocation order. -/
inductive LnEv where
  | evSecurityPathLink
  | evVfsLink
deriving DecidableEq

/-- `au_test_nlink` (vfsub excerpt): `-EMLINK` exactly when the branch
filesystem reports no intrinsic nlink limit and the source inode's link
count has reached the `UINT_MAX >> 1` margin. -/
def au_test_nlink (env : LinkEnv) (nlink : Nat) : Int :=
  if !env.noLimitNlink || nlink < UINT_MAX >>> 1 then 0 else -EMLINK

/-- `vfsub_link` (vfsub excerpt): check `au_test_nlink` first, then the
security hook, then the real `vfs_link`; the trace records which of the
two external operations were invoked. -/
def vfsub_link (env : LinkEnv) (nlink : Nat) : Int × List LnEv :=
  let e := au_test_nlink env nlink
  if e != 0 then (e, [])
  else if env.securityErr != 0 then (env.securityErr, [LnEv.evSecurityPathLink])
  else (env.vfsLinkErr, [LnEv.evSecurityPathLink, LnEv.evVfsLink])

/-! ## Write-dir resolver model (`au_wr_dir` / `au_wr_dir_cpup`,
i_op.c lines 231-355)

The aufs dentry as seen by the resolver: whether it is positive
(`!d_really_is_negative`), whether it is the filesystem root, its
per-branch lower dentry slots (`au_h_dptr`) and its branch range
`[dbtop, dbbot]` (`au_dbtop`/`au_dbbot`). -/

structure Dentry where
  positive : Bool
  isRoot : Bool
  h : Nat → Option Unit
  dbtop : Nat
  dbbot : Nat

/-- The mutable state the resolver acts on: the target dentry and its
parent dentry. -/
structure WdState where
  dentry : Dentry
  parent : Dentry

/-- Branch table for the resolver: the number of branches and the
per-branch outcome of `au_test_ro(sb, bindex, inode)` (modelled from the
spec as the branch being unusable as a write target). -/
structure SbW where
  nbr : Nat
  ro : Nat → Bool

/-- `au_test_ro` for the object of the call, per branch index. -/
def au_test_ro (sb : SbW) (bindex : Nat) : Bool := sb.ro bindex

/-- Oracles for the externals of the resolver: the outcome of the
pluggable create policy `AuWbrCreate` (a branch index, or a negative
errno), of the copyup-target policy `AuWbrCopyup`, and the errnos (0 for
success) of `au_cpup_dirs`, `au_cpdown_dirs` and `au_lkup_neg`. -/
structure WdEnv where
  wbrCreate : Int
  wbrCopyup : Int
  cpupDirsErr : Int
  cpdownDirsErr : Int
  lkupNegErr : Int

/-- External operations invoked by the resolver, in invocation order. -/
inductive WdEv where
  | evWbrCreate
  | evWbrCopyup
  | evCpupDirs
  | evCpdownDirs
  | evLkupNeg
deriving DecidableEq

/-- Result of the resolver: a branch index on success, a negative errno,
or a fatal `BUG()` / `AuDebugOn` abort. -/
inductive WdRes where
  | ok (bindex : Nat)
  | err (e : Int)
  | bug
deriving DecidableEq

/-- Pointwise update of a per-branch slot array. -/
def updf (f : Nat → Option Unit) (i : Nat) (v : Option Unit) :
    Nat → Option Unit :=
  fun j => if j = i then v else f j

/-- Modelled from the spec: `au_update_dbrange(dentry, do_put_zero=0)`
(not part of the excerpt) recomputes the dentry's branch range from the
branch slots it actually holds, so that the range spans exactly the
occupied slots; with no occupied slot the range is left alone. -/
def au_update_dbrange (nbr : Nat) (d : Dentry) : Dentry :=
  match (List.range nbr).filter (fun i => (d.h i).isSome) with
  | [] => d
  | a :: t => { d with dbtop := a, dbbot := (a :: t).getLastD a }

/-- Modelled from the spec: a successful `au_cpup_dirs` /
`au_cpdown_dirs` (not part of the excerpt) materialises the missing
ancestor chain in branch `bcpup`, so the parent gains a lower dentry at
that branch. -/
def materializeParent (s : WdState) (bcpup : Nat) : WdState :=
  { s with parent := { s.parent with h := updf s.parent.h bcpup (some ()) } }

/-- The dentry after a successful `au_lkup_neg` inside `au_wr_dir_cpup`
(i_op.c lines 262-266): the slot at `bcpup` is filled with the found
negative lower dentry; if the dentry is negative its old top slot is
dropped; then the branch range is recomputed. -/
def lkupNegPre (bcpup btop : Nat) (d : Dentry) : Dentry :=
  let d1 := { d with h := updf d.h bcpup (some ()) }
  if !d1.positive then { d1 with h := updf d1.h btop none } else d1

def lkupNegDentry (nbr bcpup btop : Nat) (d : Dentry) : Dentry :=
  au_update_dbrange nbr (lkupNegPre bcpup btop d)

/-- The tail of `au_wr_dir_cpup` (i_op.c lines 253-267): for a real
add-entry (not a tmpfile), look up a negative lower dentry at `bcpup`
and apply `lkupNegDentry` on success.  On success the function returns
`bcpup`. -/
def cpupTail (env : WdEnv) (nbr : Nat) (s : WdState)
    (add_entry tmpfile : Bool) (bcpup btop : Nat) (tr : List WdEv) :
    WdRes × WdState × List WdEv :=
  if add_entry && !tmpfile then
    if env.lkupNegErr = 0 then
      (WdRes.ok bcpup, { s with dentry := lkupNegDentry nbr bcpup btop s.dentry },
       tr ++ [WdEv.evLkupNeg])
    else (WdRes.err env.lkupNegErr, s, tr ++ [WdEv.evLkupNeg])
  else (WdRes.ok bcpup, s, tr)

/-- `au_wr_dir_cpup` (i_op.c lines 231-276): when the parent has no
lower dentry at `bcpup`, copy up the ancestor directories if
`btop > bcpup`, copy them down if `btop < bcpup`, and `BUG()` if
`btop == bcpup`; then run the add-entry tail. -/
def au_wr_dir_cpup (env : WdEnv) (nbr : Nat) (s : WdState)
    (add_entry tmpfile : Bool) (bcpup btop : Nat) :
    WdRes × WdState × List WdEv :=
  if (s.parent.h bcpup).isNone then
    if btop > bcpup then
      if env.cpupDirsErr = 0 then
        cpupTail env nbr (materializeParent s bcpup) add_entry tmpfile
          bcpup btop [WdEv.evCpupDirs]
      else (WdRes.err env.cpupDirsErr, s, [WdEv.evCpupDirs])
    else if btop < bcpup then
      if env.cpdownDirsErr = 0 then
        cpupTail env nbr (materializeParent s bcpup) add_entry tmpfile
          bcpup btop [WdEv.evCpdownDirs]
      else (WdRes.err env.cpdownDirsErr, s, [WdEv.evCpdownDirs])
    else (WdRes.bug, s, [])
  else cpupTail env nbr s add_entry tmpfile bcpup btop []

/-- The candidate-branch computation at the head of `au_wr_dir`
(i_op.c lines 301-312), for the `force_btgt < 0` case: start from
`btop`; with a source dentry whose top is shallower, prefer that; for an
add-entry, ask the create policy. -/
def au_wr_dir_candidate (env : WdEnv) (src_btop : Option Nat)
    (add_entry : Bool) (btop : Nat) : Int × List WdEv :=
  match src_btop with
  | some sbt => (if sbt < btop then (sbt : Int) else (btop : Int), [])
  | none =>
    if add_entry then (env.wbrCreate, [WdEv.evWbrCreate])
    else ((btop : Int), [])

/-- The tail of `au_wr_dir` (i_op.c lines 334-350): the fast path when
the chosen branch equals `btop`, otherwise the call to
`au_wr_dir_cpup`, the negative-dentry range update, and the final
`AuDebugOn` assertion (active when `dbg` is set). -/
def au_wr_dir_tail (env : WdEnv) (dbg : Bool) (nbr : Nat) (s : WdState)
    (add_entry tmpfile : Bool) (bcpup btop : Nat) (tr : List WdEv) :
    WdRes × WdState × List WdEv :=
  if bcpup = btop then (WdRes.ok btop, s, tr)
  else
    match au_wr_dir_cpup env nbr s (add_entry || tmpfile) tmpfile bcpup btop with
    | (WdRes.ok b, s1, tr1) =>
      let d1 := if !s1.dentry.positive then
          { s1.dentry with h := updf s1.dentry.h btop none,
                           dbtop := bcpup, dbbot := bcpup }
        else s1.dentry
      let s2 := { s1 with dentry := d1 }
      if dbg && ((add_entry || tmpfile) && !tmpfile)
          && (s2.dentry.h bcpup).isNone then
        (WdRes.bug, s2, tr ++ tr1)
      else (WdRes.ok b, s2, tr ++ tr1)
    | (r, s1, tr1) => (r, s1, tr ++ tr1)

/-- Flags of `au_wr_dir_args`: the forced target branch (`force_btgt`,
`none` for "< 0"), and the `ADD_ENTRY`, `TMPFILE` and `ISDIR` bits. -/
structure WrDirArgs where
  force_btgt : Option Nat
  add_entry : Bool
  tmpfile : Bool
  isdir : Bool

/-- `au_wr_dir` (i_op.c lines 283-355): decide the branch that will
receive the write, copying up the parent chain when needed.  `dbg`
models `CONFIG_AUFS_DEBUG` (whether `AuDebugOn` aborts). -/
def au_wr_dir (env : WdEnv) (dbg : Bool) (sb : SbW) (s : WdState)
    (src_btop : Option Nat) (args : WrDirArgs) :
    WdRes × WdState × List WdEv :=
  let btop := s.dentry.dbtop
  let addE := args.add_entry || args.tmpfile
  match args.force_btgt with
  | none =>
    let c := au_wr_dir_candidate env src_btop addE btop
    if c.1 < 0 || au_test_ro sb c.1.toNat then
      let e := env.wbrCopyup
      let tr1 := c.2 ++ [WdEv.evWbrCopyup]
      if e < 0 then (WdRes.err e, s, tr1)
      else au_wr_dir_tail env dbg sb.nbr s args.add_entry args.tmpfile
        e.toNat btop tr1
    else au_wr_dir_tail env dbg sb.nbr s args.add_entry args.tmpfile
      c.1.toNat btop c.2
  | some b =>
    if dbg && au_test_ro sb b then (WdRes.bug, s, [])
    else au_wr_dir_tail env dbg sb.nbr s args.add_entry args.tmpfile b btop []

/-! ## Pin manager model (`au_do_pin` / `au_unpin`,
i_op.c lines 359-537)

Resource actions of the pin protocol: the `a...` actions acquire
(in i_op.c: `dget_parent`, `di_read_lock`, `vfsub_mnt_want_write`,
`au_igrab`, `au_hn_inode_lock_nested`), the `r...` actions release
(`au_hn_inode_unlock`, `vfsub_mnt_drop_write`, `di_read_unlock`,
`iput`, `dput`). -/

inductive PinAct where
  | aDget
  | aDiLock
  | aMntWrite
  | aIgrab
  | aHdirLock
  | rHdirUnlock
  | rMntDrop
  | rDiUnlock
  | rIput
  | rDput
deriving DecidableEq

/-- Whether an action touches a lock (as opposed to a reference count). -/
def pinActIsLock : PinAct → Bool
  | PinAct.aDiLock => true
  | PinAct.aMntWrite => true
  | PinAct.aHdirLock => true
  | PinAct.rHdirUnlock => true
  | PinAct.rMntDrop => true
  | PinAct.rDiUnlock => true
  | _ => false

/-- The release action undoing an acquisition. -/
def pinRelease : PinAct → PinAct
  | PinAct.aDget => PinAct.rDput
  | PinAct.aDiLock => PinAct.rDiUnlock
  | PinAct.aMntWrite => PinAct.rMntDrop
  | PinAct.aIgrab => PinAct.rIput
  | PinAct.aHdirLock => PinAct.rHdirUnlock
  | a => a

/-- A trace leaves every resource balanced: each kind of acquisition is
matched by as many releases. -/
def pinBalanced (tr : List PinAct) : Prop :=
  tr.count PinAct.aDget = tr.count PinAct.rDput ∧
  tr.count PinAct.aDiLock = tr.count PinAct.rDiUnlock ∧
  tr.count PinAct.aMntWrite = tr.count PinAct.rMntDrop ∧
  tr.count PinAct.aIgrab = tr.count PinAct.rIput ∧
  tr.count PinAct.aHdirLock = tr.count PinAct.rHdirUnlock

instance (tr : List PinAct) : Decidable (pinBalanced tr) := by
  unfold pinBalanced; infer_instance

/-- The flags of `au_pin`: whether a write lease on the branch mount is
requested (`AuPin_MNT_WRITE`) and whether the caller already holds the
logical parent's read lock (`AuPin_DI_LOCKED`). -/
structure PinFlags where
  mntWrite : Bool
  diLocked : Bool

/-- Oracles for the externals consulted by `au_do_pin`: whether the
target dentry is the filesystem root, whether `vfsub_mnt_want_write`
fails, whether the logical parent has a lower dentry at the branch
(`au_h_dptr`), whether `au_hi` yields a lower-inode record and whether
that record holds an inode, whether the post-lock check
`p->hdir->hi_inode == d_inode(p->h_parent)` holds, whether the dentry
itself has a lower dentry within range at the branch, and whether
`au_h_verify` fails. -/
structure PinEnv where
  isRoot : Bool
  mntWantWriteFail : Bool
  hParentPresent : Bool
  hdirPresent : Bool
  hiInodePresent : Bool
  hdirMatch : Bool
  hDentryPresent : Bool
  hVerifyFail : Bool

/-- The state `au_do_pin` leaves in the `au_pin` record, as read later by
`au_unpin`: whether `p->hdir`, `p->h_mnt` and `p->parent` are set, and
the (possibly cleared) `MNT_WRITE` / `DI_LOCKED` flag bits. -/
structure PinRecord where
  hdirSet : Bool
  hMntSet : Bool
  parentSet : Bool
  mntWriteFlag : Bool
  diLockedFlag : Bool

/-- `au_unpin` (i_op.c lines 444-461): unlock the lower parent dir,
drop the mount write lease, and — when a lower dir record is held —
unlock the logical parent (unless the caller owned that lock) and drop
the inode and dentry references. -/
def au_unpin (p : PinRecord) : List PinAct :=
  (if p.hdirSet then [PinAct.rHdirUnlock] else []) ++
  (if p.hMntSet && p.mntWriteFlag then [PinAct.rMntDrop] else []) ++
  (if !p.hdirSet then []
   else (if !p.diLockedFlag then [PinAct.rDiUnlock] else []) ++
     [PinAct.rIput, PinAct.rDput])

/-- `au_pin_hdir_lock` (i_op.c lines 365-387): take the lower parent
dir's lock (kept even on error), fail with `-EBUSY` if the cached lower
inode no longer matches the lower parent dentry, otherwise verify the
lower dentry when one is held. -/
def au_pin_hdir_lock (env : PinEnv) : Int × List PinAct :=
  let e := if !env.hdirMatch then -EBUSY
           else if env.hDentryPresent then
             (if env.hVerifyFail then -EBUSY else 0)
           else 0
  (e, [PinAct.aHdirLock])

/-- `au_do_pin` (i_op.c lines 463-537).  Returns the errno (0 for
success, otherwise `au_busy_or_stale`), the full action trace of the
call (acquisitions and any releases performed on its failure paths), and
the pin record left behind for `au_unpin`. -/
def au_do_pin (env : PinEnv) (fl : PinFlags) :
    Int × List PinAct × PinRecord :=
  let p0 : PinRecord :=
    { hdirSet := false, hMntSet := false, parentSet := false,
      mntWriteFlag := fl.mntWrite, diLockedFlag := fl.diLocked }
  if env.isRoot then
    if fl.mntWrite then
      if env.mntWantWriteFail then
        (au_busy_or_stale, [], { p0 with hMntSet := true, mntWriteFlag := false })
      else (0, [PinAct.aMntWrite], { p0 with hMntSet := true })
    else (0, [], p0)
  else
    let tr1 := [PinAct.aDget] ++ (if !fl.diLocked then [PinAct.aDiLock] else [])
    if !(env.hdirPresent && env.hiInodePresent && env.hParentPresent) then
      (au_busy_or_stale,
       tr1 ++ (if !fl.diLocked then [PinAct.rDiUnlock] else []) ++ [PinAct.rDput],
       p0)
    else if fl.mntWrite && env.mntWantWriteFail then
      (au_busy_or_stale,
       tr1 ++ (if !fl.diLocked then [PinAct.rDiUnlock] else []) ++ [PinAct.rDput],
       { p0 with hMntSet := true, mntWriteFlag := false })
    else
      let tr2 := tr1 ++ (if fl.mntWrite then [PinAct.aMntWrite] else []) ++
        [PinAct.aIgrab]
      let lk := au_pin_hdir_lock env
      let p1 : PinRecord :=
        { p0 with hdirSet := true, hMntSet := fl.mntWrite, parentSet := true }
      if lk.1 = 0 then (0, tr2 ++ lk.2, p1)
      else (au_busy_or_stale, tr2 ++ lk.2 ++ au_unpin p1, p1)

/-- Well-formedness of a dentry's branch-range bookkeeping relative to a
branch table with `nbr` branches: the range is ordered and in bounds,
every occupied slot lies within the range, and a negative dentry holds at
most the single lower dentry recorded at its top. -/
def DentryWF (nbr : Nat) (d : Dentry) : Prop :=
  d.dbtop ≤ d.dbbot ∧ d.dbbot < nbr ∧
  (∀ j, (d.h j).isSome → d.dbtop ≤ j ∧ j ≤ d.dbbot) ∧
  (d.positive = false → ∀ j, (d.h j).isSome → j = d.dbtop)

/-- The dentry left behind by a successful non-fast-path `au_wr_dir`
(i_op.c lines 340-350): the dentry after `au_wr_dir_cpup`, with the
negative-dentry range reset applied by `au_wr_dir` itself. -/
def wrDirFinalDentry (nbr : Nat) (a t : Bool) (bcpup btop : Nat)
    (d : Dentry) : Dentry :=
  if (if ((a || t) && !t) = true then lkupNegDentry nbr bcpup btop d
      else d).positive then
    (if ((a || t) && !t) = true then lkupNegDentry nbr bcpup btop d else d)
  else
    { (if ((a || t) && !t) = true then lkupNegDentry nbr bcpup btop d
       else d) with
      h := updf (if ((a || t) && !t) = true
                 then lkupNegDentry nbr bcpup btop d else d).h btop none,
      dbtop := bcpup, dbbot := bcpup }

/-! ## Concrete fixtures for witnesses and counterexamples -/

/-- A negative dentry backed only at branch 0 (range [0,0]). -/
def dFix : Dentry :=
  { positive := false, isRoot := false,
    h := fun j => if j = 0 then some () else none, dbtop := 0, dbbot := 0 }

/-- A positive parent dentry present at branches 0 and 1. -/
def pFix : Dentry :=
  { positive := true, isRoot := false,
    h := fun _ => some (), dbtop := 0, dbbot := 1 }

/-- A positive parent dentry present at no branch. -/
def pFixEmpty : Dentry :=
  { positive := true, isRoot := false,
    h := fun _ => none, dbtop := 0, dbbot := 0 }

/-- A negative dentry backed only at branch 1 (range [1,1]). -/
def dFixDeep : Dentry :=
  { positive := false, isRoot := false,
    h := fun j => if j = 1 then some () else none, dbtop := 1, dbbot := 1 }

def sFix : WdState := { dentry := dFix, parent := pFix }
def sFixMiss : WdState := { dentry := dFix, parent := pFixEmpty }
def sFixDeep : WdState := { dentry := dFixDeep, parent := pFix }

/-- Oracles where every external succeeds and the create policy picks
branch 1. -/
def envFix : WdEnv :=
  { wbrCreate := 1, wbrCopyup := 0, cpupDirsErr := 0, cpdownDirsErr := 0,
    lkupNegErr := 0 }

/-- Two branches, both writable. -/
def sbFix : SbW := { nbr := 2, ro := fun _ => false }

/-- Two branches, both read-only. -/
def sbFixRO : SbW := { nbr := 2, ro := fun _ => true }

def argsAdd : WrDirArgs :=
  { force_btgt := none, add_entry := true, tmpfile := false, isdir := false }

def argsForce0 : WrDirArgs :=
  { force_btgt := some 0, add_entry := true, tmpfile := false, isdir := false }

/-- Oracles where every external succeeds and the create policy picks
branch 0. -/
def envFix0 : WdEnv :=
  { wbrCreate := 0, wbrCopyup := 0, cpupDirsErr := 0, cpdownDirsErr := 0,
    lkupNegErr := 0 }

/-! ## Permission fixtures -/

def envPermOk : PermEnv := { hperm := fun _ => 0 }
def sbPFix : PSb := { br := fun _ => { rdonly := false } }
def inodeDirFix : AuInode :=
  { ftype := FType.dir, ibtop := 0, ibbot := 1,
    hinode := fun j => if j ≤ 1 then some ⟨FType.dir⟩ else none }
def inodeRegFix : AuInode :=
  { ftype := FType.reg, ibtop := 0, ibbot := 0,
    hinode := fun j => if j = 0 then some ⟨FType.reg⟩ else none }
def maskRead : Mask :=
  { may_read := true, may_write := false, may_append := false,
    may_exec := false, may_not_block := false }
def maskWrite : Mask :=
  { may_read := false, may_write := true, may_append := false,
    may_exec := false, may_not_block := false }
def maskNB : Mask :=
  { may_read := true, may_write := false, may_append := false,
    may_exec := false, may_not_block := true }
def lkEnvFix : LkEnv :=
  { siLockErr := 0, diInitErr := 0, aliveErr := 0, digenErr := 0,
    lkupRes := 1, newInodeErr := 0 }
def linkEnvFix : LinkEnv :=
  { noLimitNlink := true, securityErr := 0, vfsLinkErr := 0 }

/-! ## Pin fixtures -/

def pinEnvFix : PinEnv :=
  { isRoot := false, mntWantWriteFail := false, hParentPresent := true,
    hdirPresent := true, hiInodePresent := true, hdirMatch := true,
    hDentryPresent := true, hVerifyFail := false }

def pinFlagsFix : PinFlags := { mntWrite := true, diLocked := false }

/-! ## Helper lemmas about the write-dir resolver -/

theorem cpupTail_parent (env : WdEnv) (nbr : Nat) (s : WdState)
    (a t : Bool) (bcpup btop : Nat) (tr : List WdEv) :
    (cpupTail env nbr s a t bcpup btop tr).2.1.parent = s.parent := by
  unfold cpupTail
  split <;> [skip; rfl]
  split <;> rfl

theorem cpupTail_trace (env : WdEnv) (nbr : Nat) (s : WdState)
    (a t : Bool) (bcpup btop : Nat) (tr : List WdEv) :
    (cpupTail env nbr s a t bcpup btop tr).2.2 =
      tr ++ (if a && !t then [WdEv.evLkupNeg] else []) := by
  unfold cpupTail
  split
  · split <;> simp_all
  · simp_all

theorem cpupTail_ok (env : WdEnv) (nbr : Nat) (s : WdState)
    (a t : Bool) (bcpup btop : Nat) (tr : List WdEv) (i : Nat)
    (h : (cpupTail env nbr s a t bcpup btop tr).1 = WdRes.ok i) :
    i = bcpup ∧ ((a && !t) = true → env.lkupNegErr = 0) := by
  unfold cpupTail at h
  split at h
  · split at h <;> simp_all
  · simp_all

theorem cpupTail_dentry_pos (env : WdEnv) (nbr : Nat) (s : WdState)
    (a t : Bool) (bcpup btop : Nat) (tr : List WdEv)
    (h1 : (a && !t) = true) (h2 : env.lkupNegErr = 0) :
    (cpupTail env nbr s a t bcpup btop tr).2.1.dentry =
      lkupNegDentry nbr bcpup btop s.dentry := by
  unfold cpupTail
  simp [h1, h2]

theorem cpupTail_dentry_id (env : WdEnv) (nbr : Nat) (s : WdState)
    (a t : Bool) (bcpup btop : Nat) (tr : List WdEv)
    (h1 : (a && !t) = false) :
    (cpupTail env nbr s a t bcpup btop tr).2.1.dentry = s.dentry := by
  unfold cpupTail
  simp [h1]

theorem au_wr_dir_cpup_ok (env : WdEnv) (nbr : Nat) (s : WdState)
    (a t : Bool) (bcpup btop : Nat) (i : Nat)
    (h : (au_wr_dir_cpup env nbr s a t bcpup btop).1 = WdRes.ok i) :
    i = bcpup ∧ ((a && !t) = true → env.lkupNegErr = 0) := by
  unfold au_wr_dir_cpup at h
  split at h
  · split at h
    · split at h
      · exact cpupTail_ok _ _ _ _ _ _ _ _ _ h
      · simp_all
    · split at h
      · split at h
        · exact cpupTail_ok _ _ _ _ _ _ _ _ _ h
        · simp_all
      · simp_all
  · exact cpupTail_ok _ _ _ _ _ _ _ _ _ h

theorem au_wr_dir_cpup_ok_dentry (env : WdEnv) (nbr : Nat) (s : WdState)
    (a t : Bool) (bcpup btop : Nat) (i : Nat)
    (h : (au_wr_dir_cpup env nbr s a t bcpup btop).1 = WdRes.ok i) :
    (au_wr_dir_cpup env nbr s a t bcpup btop).2.1.dentry =
      (if (a && !t) = true then lkupNegDentry nbr bcpup btop s.dentry
       else s.dentry) := by
  rcases au_wr_dir_cpup_ok env nbr s a t bcpup btop i h with ⟨-, hlk⟩
  by_cases hat : (a && !t) = true
  · have hl := hlk hat
    have hd : ∀ s' tr', (cpupTail env nbr s' a t bcpup btop tr').2.1.dentry =
        lkupNegDentry nbr bcpup btop s'.dentry :=
      fun s' tr' => cpupTail_dentry_pos env nbr s' a t bcpup btop tr' hat hl
    by_cases hp : (s.parent.h bcpup).isNone = true
    · by_cases hgt : btop > bcpup
      · by_cases he : env.cpupDirsErr = 0
        · simp [au_wr_dir_cpup, hp, hgt, he, hd, materializeParent, hat]
        · simp [au_wr_dir_cpup, hp, hgt, he] at h
      · by_cases hlt : btop < bcpup
        · by_cases he : env.cpdownDirsErr = 0
          · simp [au_wr_dir_cpup, hp, hgt, hlt, he, hd, materializeParent, hat]
          · simp [au_wr_dir_cpup, hp, hgt, hlt, he] at h
        · simp [au_wr_dir_cpup, hp, hgt, hlt] at h
    · simp [au_wr_dir_cpup, hp, hd, hat]
  · have hd : ∀ s' tr', (cpupTail env nbr s' a t bcpup btop tr').2.1.dentry =
        s'.dentry :=
      fun s' tr' => cpupTail_dentry_id env nbr s' a t bcpup btop tr' (by simp_all)
    by_cases hp : (s.parent.h bcpup).isNone = true
    · by_cases hgt : btop > bcpup
      · by_cases he : env.cpupDirsErr = 0
        · simp [au_wr_dir_cpup, hp, hgt, he, hd, materializeParent, hat]
        · simp [au_wr_dir_cpup, hp, hgt, he] at h
      · by_cases hlt : btop < bcpup
        · by_cases he : env.cpdownDirsErr = 0
          · simp [au_wr_dir_cpup, hp, hgt, hlt, he, hd, materializeParent, hat]
          · simp [au_wr_dir_cpup, hp, hgt, hlt, he] at h
        · simp [au_wr_dir_cpup, hp, hgt, hlt] at h
    · simp [au_wr_dir_cpup, hp, hd, hat]

theorem cpupTail_ne_bug (env : WdEnv) (nbr : Nat) (s : WdState)
    (a t : Bool) (bcpup btop : Nat) (tr : List WdEv) :
    (cpupTail env nbr s a t bcpup btop tr).1 ≠ WdRes.bug := by
  unfold cpupTail
  split
  · split <;> simp
  · simp

theorem cpupTail_ok_of (env : WdEnv) (nbr : Nat) (s : WdState)
    (a t : Bool) (bcpup btop : Nat) (tr : List WdEv)
    (hl : (a && !t) = true → env.lkupNegErr = 0) :
    (cpupTail env nbr s a t bcpup btop tr).1 = WdRes.ok bcpup := by
  unfold cpupTail
  by_cases hat : (a && !t) = true
  · simp [hat, hl hat]
  · simp [hat]

theorem au_wr_dir_cpup_trace (env : WdEnv) (nbr : Nat) (s : WdState)
    (a t : Bool) (bcpup btop : Nat) :
    (au_wr_dir_cpup env nbr s a t bcpup btop).2.2 =
      (if (s.parent.h bcpup).isNone then
        (if btop > bcpup then
           (if env.cpupDirsErr = 0 then
              [WdEv.evCpupDirs] ++ (if a && !t then [WdEv.evLkupNeg] else [])
            else [WdEv.evCpupDirs])
         else if btop < bcpup then
           (if env.cpdownDirsErr = 0 then
              [WdEv.evCpdownDirs] ++ (if a && !t then [WdEv.evLkupNeg] else [])
            else [WdEv.evCpdownDirs])
         else ([] : List WdEv))
       else (if a && !t then [WdEv.evLkupNeg] else [])) := by
  unfold au_wr_dir_cpup
  repeat' split
  all_goals simp_all [cpupTail_trace]

theorem au_wr_dir_cpup_bug_iff (env : WdEnv) (nbr : Nat) (s : WdState)
    (a t : Bool) (bcpup btop : Nat)
    (hmiss : s.parent.h bcpup = none) :
    ((au_wr_dir_cpup env nbr s a t bcpup btop).1 = WdRes.bug ↔ btop = bcpup) := by
  by_cases hgt : btop > bcpup
  · have hne : ¬btop = bcpup := by omega
    by_cases he : env.cpupDirsErr = 0 <;>
      simp [au_wr_dir_cpup, hmiss, hgt, he, cpupTail_ne_bug, hne]
  · by_cases hlt : btop < bcpup
    · have hne : ¬btop = bcpup := by omega
      by_cases he : env.cpdownDirsErr = 0 <;>
        simp [au_wr_dir_cpup, hmiss, hgt, hlt, he, cpupTail_ne_bug, hne]
    · have heq : btop = bcpup := by omega
      simp [au_wr_dir_cpup, hmiss, hgt, hlt, heq]

theorem au_wr_dir_cpup_ok_parent (env : WdEnv) (nbr : Nat) (s : WdState)
    (a t : Bool) (bcpup btop : Nat) (i : Nat)
    (h : (au_wr_dir_cpup env nbr s a t bcpup btop).1 = WdRes.ok i) :
    ((au_wr_dir_cpup env nbr s a t bcpup btop).2.1.parent.h bcpup).isSome := by
  by_cases hp : (s.parent.h bcpup).isNone = true
  · by_cases hgt : btop > bcpup
    · by_cases he : env.cpupDirsErr = 0
      · simp [au_wr_dir_cpup, hp, hgt, he, cpupTail_parent, materializeParent, updf]
      · simp [au_wr_dir_cpup, hp, hgt, he] at h
    · by_cases hlt : btop < bcpup
      · by_cases he : env.cpdownDirsErr = 0
        · simp [au_wr_dir_cpup, hp, hgt, hlt, he, cpupTail_parent,
            materializeParent, updf]
        · simp [au_wr_dir_cpup, hp, hgt, hlt, he] at h
      · simp [au_wr_dir_cpup, hp, hgt, hlt] at h
  · have hs : (s.parent.h bcpup).isSome = true := by
      cases hv : s.parent.h bcpup with
      | none => exact absurd (by simp [hv]) hp
      | some v => simp
    simp [au_wr_dir_cpup, hp, cpupTail_parent, hs]

theorem au_wr_dir_cpup_present (env : WdEnv) (nbr : Nat) (s : WdState)
    (a t : Bool) (bcpup btop : Nat)
    (hp : (s.parent.h bcpup).isSome = true) :
    au_wr_dir_cpup env nbr s a t bcpup btop =
      cpupTail env nbr s a t bcpup btop [] := by
  have hn : (s.parent.h bcpup).isNone = false := by
    cases hv : s.parent.h bcpup <;> simp_all
  simp [au_wr_dir_cpup, hn]

theorem au_wr_dir_tail_ok (env : WdEnv) (dbg : Bool) (nbr : Nat)
    (s : WdState) (a t : Bool) (bcpup btop : Nat) (tr : List WdEv) (i : Nat)
    (h : (au_wr_dir_tail env dbg nbr s a t bcpup btop tr).1 = WdRes.ok i) :
    i = bcpup := by
  unfold au_wr_dir_tail at h
  split at h
  · simp at h
    omega
  · rcases hcp : au_wr_dir_cpup env nbr s (a || t) t bcpup btop with ⟨r, s1, tr1⟩
    rw [hcp] at h
    cases r with
    | ok b =>
      have hb : (au_wr_dir_cpup env nbr s (a || t) t bcpup btop).1 = WdRes.ok b := by
        rw [hcp]
      have hbb := (au_wr_dir_cpup_ok env nbr s (a || t) t bcpup btop b hb).1
      simp only [apply_ite] at h
      split at h <;> split at h <;> simp_all
    | err e => simp at h
    | bug => simp at h

theorem au_wr_dir_tail_trace (env : WdEnv) (dbg : Bool) (nbr : Nat)
    (s : WdState) (a t : Bool) (bcpup btop : Nat) (tr : List WdEv) :
    (au_wr_dir_tail env dbg nbr s a t bcpup btop tr).2.2 =
      tr ++ (if bcpup = btop then []
             else (au_wr_dir_cpup env nbr s (a || t) t bcpup btop).2.2) := by
  unfold au_wr_dir_tail
  split
  · simp_all
  · rcases hcp : au_wr_dir_cpup env nbr s (a || t) t bcpup btop with ⟨r, s1, tr1⟩
    cases r with
    | ok b =>
      simp only [hcp]
      simp [apply_ite, ite_self]
    | err e => simp_all
    | bug => simp_all

/-! ## Claims C5, C6, C7, C8 -/

/-- Claim C5: with a forced target branch (`args->force_btgt >= 0`),
`au_wr_dir` never consults the create policy or the copyup policy, any
branch index it returns is the forced one, and (in a debug build) a
forced branch that is read-only for the object aborts on the
`AuDebugOn` assertion before anything else happens. -/
theorem au_wr_dir_forced_branch (env : WdEnv) (dbg : Bool) (sb : SbW)
    (s : WdState) (src : Option Nat) (args : WrDirArgs) (b : Nat)
    (hf : args.force_btgt = some b) :
    (WdEv.evWbrCreate ∉ (au_wr_dir env dbg sb s src args).2.2 ∧
     WdEv.evWbrCopyup ∉ (au_wr_dir env dbg sb s src args).2.2) ∧
    (∀ i, (au_wr_dir env dbg sb s src args).1 = WdRes.ok i → i = b) ∧
    (dbg = true → au_test_ro sb b = true →
      (au_wr_dir env dbg sb s src args).1 = WdRes.bug ∧
      (au_wr_dir env dbg sb s src args).2.2 = []) := by
  by_cases hro : (dbg && au_test_ro sb b) = true
  · have hru : au_wr_dir env dbg sb s src args = (WdRes.bug, s, []) := by
      simp [au_wr_dir, hf, hro]
    simp [hru]
  · have hru : au_wr_dir env dbg sb s src args =
        au_wr_dir_tail env dbg sb.nbr s args.add_entry args.tmpfile b
          s.dentry.dbtop [] := by
      simp [au_wr_dir, hf, hro]
    refine ⟨?_, ?_, ?_⟩
    · rw [hru, au_wr_dir_tail_trace]
      constructor
      · intro hmem
        rcases List.mem_append.mp hmem with hm | hm
        · simp at hm
        · split at hm
          · simp at hm
          · rw [au_wr_dir_cpup_trace] at hm
            repeat' split at hm
            all_goals simp_all
      · intro hmem
        rcases List.mem_append.mp hmem with hm | hm
        · simp at hm
        · split at hm
          · simp at hm
          · rw [au_wr_dir_cpup_trace] at hm
            repeat' split at hm
            all_goals simp_all
    · intro i hi
      rw [hru] at hi
      exact au_wr_dir_tail_ok _ _ _ _ _ _ _ _ _ _ hi
    · intro hdbg hb
      rw [hdbg, hb] at hro
      simp at hro
theorem au_wr_dir_forced_branch_w :
    (au_wr_dir envFix true sbFixRO sFix none argsForce0).1 = WdRes.bug ∧
    (au_wr_dir envFix true sbFixRO sFix none argsForce0).2.2 = [] :=
  (au_wr_dir_forced_branch envFix true sbFixRO sFix none argsForce0 0
    rfl).2.2 rfl rfl

/-- Claim C6: when the parent is missing at the chosen branch,
`au_wr_dir_cpup` applies exactly one materialization direction per call:
it runs `au_cpup_dirs` exactly when `btop > bcpup`, `au_cpdown_dirs`
exactly when `btop < bcpup`, exactly one of the two in total when the
indices differ, and `btop == bcpup` with the parent still missing is a
fatal `BUG()` (and conversely the call can only abort this way in that
situation). -/
theorem au_wr_dir_cpup_one_direction (env : WdEnv) (nbr : Nat) (s : WdState)
    (a t : Bool) (bcpup btop : Nat)
    (hmiss : s.parent.h bcpup = none) :
    ((au_wr_dir_cpup env nbr s a t bcpup btop).1 = WdRes.bug ↔ btop = bcpup) ∧
    (btop ≠ bcpup →
      ((au_wr_dir_cpup env nbr s a t bcpup btop).2.2.count WdEv.evCpupDirs) +
        ((au_wr_dir_cpup env nbr s a t bcpup btop).2.2.count WdEv.evCpdownDirs)
        = 1) ∧
    (WdEv.evCpupDirs ∈ (au_wr_dir_cpup env nbr s a t bcpup btop).2.2 ↔
      btop > bcpup) ∧
    (WdEv.evCpdownDirs ∈ (au_wr_dir_cpup env nbr s a t bcpup btop).2.2 ↔
      btop < bcpup) := by
  have hm : (s.parent.h bcpup).isNone = true := by simp [hmiss]
  refine ⟨au_wr_dir_cpup_bug_iff env nbr s a t bcpup btop hmiss, ?_, ?_, ?_⟩
  · intro hne
    rw [au_wr_dir_cpup_trace]
    by_cases hgt : btop > bcpup
    · by_cases he : env.cpupDirsErr = 0 <;>
        by_cases hat : (a && !t) = true <;>
        simp [hm, hgt, he, hat, List.count_append]
    · have hlt : btop < bcpup := by omega
      by_cases he : env.cpdownDirsErr = 0 <;>
        by_cases hat : (a && !t) = true <;>
        simp [hm, hgt, hlt, he, hat, List.count_append]
  · rw [au_wr_dir_cpup_trace]
    by_cases hgt : btop > bcpup
    · by_cases he : env.cpupDirsErr = 0 <;>
        by_cases hat : (a && !t) = true <;>
        simp [hm, hgt, he, hat]
    · by_cases hlt : btop < bcpup
      · by_cases he : env.cpdownDirsErr = 0 <;>
          by_cases hat : (a && !t) = true <;>
          simp [hm, hgt, hlt, he, hat]
      · simp [hm, hgt, hlt]
  · rw [au_wr_dir_cpup_trace]
    by_cases hgt : btop > bcpup
    · have : ¬btop < bcpup := by omega
      by_cases he : env.cpupDirsErr = 0 <;>
        by_cases hat : (a && !t) = true <;>
        simp [hm, hgt, he, hat, this]
    · by_cases hlt : btop < bcpup
      · by_cases he : env.cpdownDirsErr = 0 <;>
          by_cases hat : (a && !t) = true <;>
          simp [hm, hgt, hlt, he, hat]
      · simp [hm, hgt, hlt]
theorem au_wr_dir_cpup_one_direction_w :
    ((au_wr_dir_cpup envFix 2 sFixMiss true false 0 1).2.2.count
        WdEv.evCpupDirs) +
      ((au_wr_dir_cpup envFix 2 sFixMiss true false 0 1).2.2.count
        WdEv.evCpdownDirs) = 1 :=
  (au_wr_dir_cpup_one_direction envFix 2 sFixMiss true false 0 1
    rfl).2.1 (by decide)

/-- Claim C7: without a forced branch, when a source dentry is supplied
and its topmost branch index is strictly lower (shallower) than the
target's `btop`, `au_wr_dir` takes the source's top as the candidate
branch instead of `btop`; and as long as that branch is usable for
writing (so the copyup fallback is not consulted), any branch index the
resolver returns is exactly the source's top. -/
theorem au_wr_dir_src_bound (env : WdEnv) (dbg : Bool) (sb : SbW)
    (s : WdState) (args : WrDirArgs) (sbt : Nat)
    (hf : args.force_btgt = none) (hs : sbt < s.dentry.dbtop)
    (hro : au_test_ro sb sbt = false) :
    (au_wr_dir_candidate env (some sbt) (args.add_entry || args.tmpfile)
        s.dentry.dbtop).1 = (sbt : Int) ∧
    (∀ i, (au_wr_dir env dbg sb s (some sbt) args).1 = WdRes.ok i →
      i = sbt) := by
  have hc : au_wr_dir_candidate env (some sbt) (args.add_entry || args.tmpfile)
      s.dentry.dbtop = ((sbt : Int), []) := by
    simp [au_wr_dir_candidate, hs]
  refine ⟨by rw [hc], ?_⟩
  intro i hi
  have hnn : ¬((sbt : Int) < 0) := by omega
  have hru : au_wr_dir env dbg sb s (some sbt) args =
      au_wr_dir_tail env dbg sb.nbr s args.add_entry args.tmpfile sbt
        s.dentry.dbtop [] := by
    simp [au_wr_dir, hf, hc, hnn, hro]
  rw [hru] at hi
  exact au_wr_dir_tail_ok _ _ _ _ _ _ _ _ _ _ hi
theorem au_wr_dir_src_bound_w :
    (au_wr_dir_candidate envFix (some 0)
      (argsAdd.add_entry || argsAdd.tmpfile) sFixDeep.dentry.dbtop).1 =
      (0 : Int) :=
  (au_wr_dir_src_bound envFix true sbFix sFixDeep argsAdd 0 rfl
    (by decide) rfl).1

/-- Claim C8: ancestor materialization is idempotent: after a first
successful `au_wr_dir_cpup` for `(entry, bcpup)`, the parent holds a
lower dentry at `bcpup`, and a second invocation with the same arguments
performs no `au_cpup_dirs`/`au_cpdown_dirs` directory creation and still
returns success with the same branch index. -/
theorem au_wr_dir_cpup_idempotent (env : WdEnv) (nbr : Nat) (s : WdState)
    (a t : Bool) (bcpup btop : Nat)
    (h : (au_wr_dir_cpup env nbr s a t bcpup btop).1 = WdRes.ok bcpup) :
    ((au_wr_dir_cpup env nbr s a t bcpup btop).2.1.parent.h bcpup).isSome ∧
    (au_wr_dir_cpup env nbr (au_wr_dir_cpup env nbr s a t bcpup btop).2.1
        a t bcpup btop).1 = WdRes.ok bcpup ∧
    WdEv.evCpupDirs ∉
      (au_wr_dir_cpup env nbr (au_wr_dir_cpup env nbr s a t bcpup btop).2.1
        a t bcpup btop).2.2 ∧
    WdEv.evCpdownDirs ∉
      (au_wr_dir_cpup env nbr (au_wr_dir_cpup env nbr s a t bcpup btop).2.1
        a t bcpup btop).2.2 := by
  have hpar := au_wr_dir_cpup_ok_parent env nbr s a t bcpup btop bcpup h
  have hlk := (au_wr_dir_cpup_ok env nbr s a t bcpup btop bcpup h).2
  have h2 := au_wr_dir_cpup_present env nbr
    (au_wr_dir_cpup env nbr s a t bcpup btop).2.1 a t bcpup btop hpar
  refine ⟨hpar, ?_, ?_, ?_⟩
  · rw [h2]
    exact cpupTail_ok_of _ _ _ _ _ _ _ _ hlk
  · rw [h2, cpupTail_trace]
    split <;> simp
  · rw [h2, cpupTail_trace]
    split <;> simp
theorem au_wr_dir_cpup_idempotent_w :
    (au_wr_dir_cpup envFix 2 (au_wr_dir_cpup envFix 2 sFixMiss true false 0
        1).2.1 true false 0 1).1 = WdRes.ok 0 :=
  (au_wr_dir_cpup_idempotent envFix 2 sFixMiss true false 0 1
    (by decide)).2.1

/-! ## Lemmas about the permission loop and the writable-branch scan -/

theorem dirPermLoop_succ_none (env : PermEnv) (inode : AuInode) (b f : Nat)
    (hb : inode.hinode b = none) :
    dirPermLoop env inode b (f + 1) = dirPermLoop env inode (b + 1) f := by
  conv_lhs => unfold dirPermLoop
  rw [hb]

theorem dirPermLoop_succ_some (env : PermEnv) (inode : AuInode) (b f : Nat)
    (hn : HIn) (hb : inode.hinode b = some hn) :
    dirPermLoop env inode b (f + 1) =
      (if (hn.ftype != FType.dir) = true then au_busy_or_stale
       else if env.hperm b = 0 then dirPermLoop env inode (b + 1) f
       else env.hperm b) := by
  conv_lhs => unfold dirPermLoop
  rw [hb]

theorem dirPermLoop_zero (env : PermEnv) (inode : AuInode) :
    ∀ f b, dirPermLoop env inode b f = 0 →
      ∀ i, b ≤ i → i < b + f → (inode.hinode i).isSome → env.hperm i = 0 := by
  intro f
  induction f with
  | zero =>
    intro b _ i h1 h2 _
    omega
  | succ f ih =>
    intro b h i h1 h2 hs
    rcases hh : inode.hinode b with _ | hn
    · rw [dirPermLoop_succ_none env inode b f hh] at h
      rcases Nat.eq_or_lt_of_le h1 with he | hlt
      · rw [← he] at hs
        simp [hh] at hs
      · exact ih (b + 1) h i hlt (by omega) hs
    · rw [dirPermLoop_succ_some env inode b f hn hh] at h
      by_cases hd : (hn.ftype != FType.dir) = true
      · rw [if_pos hd] at h
        simp [au_busy_or_stale, EBUSY] at h
      · rw [if_neg hd] at h
        by_cases hp : env.hperm b = 0
        · rw [if_pos hp] at h
          rcases Nat.eq_or_lt_of_le h1 with he | hlt
          · rw [← he]
            exact hp
          · exact ih (b + 1) h i hlt (by omega) hs
        · rw [if_neg hp] at h
          exact absurd h hp

theorem dirPermLoop_all_zero (env : PermEnv) (inode : AuInode) :
    ∀ f b, (∀ i, b ≤ i → i < b + f → ∀ hn, inode.hinode i = some hn →
        hn.ftype = FType.dir ∧ env.hperm i = 0) →
      dirPermLoop env inode b f = 0 := by
  intro f
  induction f with
  | zero => intro b _; rfl
  | succ f ih =>
    intro b hall
    rcases hh : inode.hinode b with _ | hn
    · rw [dirPermLoop_succ_none env inode b f hh]
      exact ih (b + 1) (fun i h1 h2 => hall i (by omega) (by omega))
    · rcases hall b (le_refl b) (by omega) hn hh with ⟨hd, hp⟩
      rw [dirPermLoop_succ_some env inode b f hn hh, hd]
      simp only [bne_self_eq_false, Bool.false_eq_true, if_neg,
        not_false_iff]
      rw [if_pos hp]
      exact ih (b + 1) (fun i h1 h2 => hall i (by omega) (by omega))

theorem dirPermLoop_first_fail (env : PermEnv) (inode : AuInode) :
    ∀ f b j, b ≤ j → j < b + f →
      (∀ k, b ≤ k → k < j → ∀ hn, inode.hinode k = some hn →
        hn.ftype = FType.dir ∧ env.hperm k = 0) →
      ∀ hn, inode.hinode j = some hn → hn.ftype = FType.dir →
      env.hperm j ≠ 0 →
      dirPermLoop env inode b f = env.hperm j := by
  intro f
  induction f with
  | zero => intro b j h1 h2; omega
  | succ f ih =>
    intro b j h1 h2 hpre hn hj hd hnz
    rcases Nat.eq_or_lt_of_le h1 with he | hlt
    · rw [← he] at hj hnz ⊢
      rw [dirPermLoop_succ_some env inode b f hn hj, hd]
      simp only [bne_self_eq_false, Bool.false_eq_true, if_neg,
        not_false_iff]
      rw [if_neg hnz]
    · rcases hh : inode.hinode b with _ | hn2
      · rw [dirPermLoop_succ_none env inode b f hh]
        exact ih (b + 1) j hlt (by omega)
          (fun k hk1 hk2 => hpre k (by omega) hk2) hn hj hd hnz
      · rcases hpre b (le_refl b) hlt hn2 hh with ⟨hd2, hp2⟩
        rw [dirPermLoop_succ_some env inode b f hn2 hh, hd2]
        simp only [bne_self_eq_false, Bool.false_eq_true, if_neg,
          not_false_iff]
        rw [if_pos hp2]
        exact ih (b + 1) j hlt (by omega)
          (fun k hk1 hk2 => hpre k (by omega) hk2) hn hj hd hnz

theorem upperWritable_zero_iff (sb : PSb) :
    ∀ b, (upperWritable sb b = 0 ↔
      ∃ i, i ≤ b ∧ (sb.br i).rdonly = false) := by
  intro b
  induction b with
  | zero =>
    unfold upperWritable
    by_cases hr : (sb.br 0).rdonly
    · simp [hr, EROFS, Nat.le_zero]
    · simp only [Bool.not_eq_true] at hr
      simp [hr, Nat.le_zero]
  | succ b ih =>
    by_cases hr : (sb.br (b + 1)).rdonly
    · have h0 : upperWritable sb (b + 1) = upperWritable sb b := by
        show (if !(sb.br (b + 1)).rdonly then 0 else upperWritable sb b) =
          upperWritable sb b
        simp [hr]
      rw [h0, ih]
      constructor
      · rintro ⟨i, hi, hw⟩
        exact ⟨i, by omega, hw⟩
      · rintro ⟨i, hi, hw⟩
        refine ⟨i, ?_, hw⟩
        rcases Nat.eq_or_lt_of_le hi with he | hlt
        · rw [he] at hw
          rw [hw] at hr
          exact absurd hr (by simp)
        · omega
    · simp only [Bool.not_eq_true] at hr
      have h0 : upperWritable sb (b + 1) = 0 := by
        conv_lhs => unfold upperWritable
        simp [hr]
      rw [h0]
      simp only [eq_self_iff_true, true_iff]
      exact ⟨b + 1, le_refl _, hr⟩

theorem upperWritable_cases (sb : PSb) :
    ∀ b, upperWritable sb b = 0 ∨ upperWritable sb b = -EROFS := by
  intro b
  induction b with
  | zero =>
    unfold upperWritable
    split <;> simp
  | succ b ih =>
    unfold upperWritable
    split
    · left; rfl
    · exact ih

theorem upperWritable_erofs_iff (sb : PSb) (b : Nat) :
    upperWritable sb b = -EROFS ↔
      ∀ i, i ≤ b → (sb.br i).rdonly = true := by
  constructor
  · intro hro i hi
    by_contra hbr
    simp only [Bool.not_eq_true] at hbr
    have h0 := (upperWritable_zero_iff sb b).mpr ⟨i, hi, hbr⟩
    rw [h0] at hro
    exact absurd hro (by decide)
  · intro hall
    rcases upperWritable_cases sb b with hc | hc
    · rcases (upperWritable_zero_iff sb b).mp hc with ⟨i, hi, hwr⟩
      rw [hall i hi] at hwr
      exact absurd hwr (by simp)
    · exact hc

theorem aufs_permission_dir_eq (env : PermEnv) (sb : PSb) (inode : AuInode)
    (mask : Mask) (hnb : mask.may_not_block = false)
    (hd : inode.ftype = FType.dir) (hw : mask.may_write = false)
    (ha : mask.may_append = false) :
    (aufs_permission env sb inode mask).1 =
      dirPermLoop env inode inode.ibtop (inode.ibbot + 1 - inode.ibtop) := by
  simp [aufs_permission, hnb, hd, hw, ha]

theorem aufs_permission_top_eq (env : PermEnv) (sb : PSb) (inode : AuInode)
    (mask : Mask) (hn : HIn) (hnb : mask.may_not_block = false)
    (hcase : inode.ftype = FType.dir →
      (mask.may_write || mask.may_append) = true)
    (hh : inode.hinode inode.ibtop = some hn)
    (hft : hn.ftype = inode.ftype) :
    (aufs_permission env sb inode mask).1 =
      (if (mask.may_write || mask.may_append) &&
            (env.hperm inode.ibtop == 0) && !special_file hn.ftype
       then upperWritable sb inode.ibtop
       else env.hperm inode.ibtop) := by
  by_cases hdir : inode.ftype = FType.dir
  · have hwm := hcase hdir
    simp [aufs_permission, hnb, hh, hwm, hft, apply_ite]
    split <;> intros <;> simp_all
  · have hbeq : (inode.ftype == FType.dir) = false := by
      simp [hdir]
    simp [aufs_permission, hnb, hh, hbeq, hft, apply_ite]
    split <;> intros <;> simp_all

/-! ## Claims C2, C3, C9, C10 -/

/-- Claim C2: for a directory and a permission request without write
access, `aufs_permission` succeeds only if the per-branch check succeeds
at every branch index in `[ibtop, ibbot]` at which a lower inode exists
(and, when all contributing lower inodes are directories, exactly then);
the branches are consulted in ascending order and the loop stops at the
first failing branch, whose error becomes the result. -/
theorem aufs_permission_dir_conjunction (env : PermEnv) (sb : PSb)
    (inode : AuInode) (mask : Mask)
    (hnb : mask.may_not_block = false) (hd : inode.ftype = FType.dir)
    (hw : mask.may_write = false) (ha : mask.may_append = false) :
    ((aufs_permission env sb inode mask).1 = 0 →
      ∀ i, inode.ibtop ≤ i → i ≤ inode.ibbot → (inode.hinode i).isSome →
        env.hperm i = 0) ∧
    ((∀ i, inode.ibtop ≤ i → i ≤ inode.ibbot → ∀ hn,
        inode.hinode i = some hn → hn.ftype = FType.dir ∧ env.hperm i = 0) →
      (aufs_permission env sb inode mask).1 = 0) ∧
    (∀ j, inode.ibtop ≤ j → j ≤ inode.ibbot → ∀ hn,
      inode.hinode j = some hn → hn.ftype = FType.dir → env.hperm j ≠ 0 →
      (∀ k, inode.ibtop ≤ k → k < j → ∀ hn2, inode.hinode k = some hn2 →
        hn2.ftype = FType.dir ∧ env.hperm k = 0) →
      (aufs_permission env sb inode mask).1 = env.hperm j) := by
  have he := aufs_permission_dir_eq env sb inode mask hnb hd hw ha
  rw [he]
  refine ⟨?_, ?_, ?_⟩
  · intro h i h1 h2 hs
    exact dirPermLoop_zero env inode _ inode.ibtop h i h1 (by omega) hs
  · intro hall
    exact dirPermLoop_all_zero env inode _ inode.ibtop
      (fun i h1 h2 hn hh => hall i h1 (by omega) hn hh)
  · intro j h1 h2 hn hh hdj hnz hpre
    exact dirPermLoop_first_fail env inode _ inode.ibtop j h1 (by omega)
      hpre hn hh hdj hnz
theorem aufs_permission_dir_conjunction_w :
    envPermOk.hperm 0 = 0 :=
  (aufs_permission_dir_conjunction envPermOk sbPFix inodeDirFix maskRead
    rfl rfl rfl rfl).1 (by decide) 0 (by decide) (by decide) (by decide)

/-- Claim C3: for a non-directory object (or a directory with write
access requested), `aufs_permission` consults the branch permission
check only at the topmost existing branch; and when write access is
requested, that check succeeded and the object is not a special file, it
scans from the topmost existing branch downward in index for a writable
branch, returning `-EROFS` exactly when every branch at index at most
`ibtop` is read-only (and success exactly when some such branch is
writable). -/
theorem aufs_permission_top_only (env env2 : PermEnv) (sb : PSb)
    (inode : AuInode) (mask : Mask) (hn : HIn)
    (hnb : mask.may_not_block = false)
    (hcase : inode.ftype = FType.dir →
      (mask.may_write || mask.may_append) = true)
    (hh : inode.hinode inode.ibtop = some hn)
    (hft : hn.ftype = inode.ftype) :
    ((env2.hperm inode.ibtop = env.hperm inode.ibtop →
      (aufs_permission env2 sb inode mask).1 =
        (aufs_permission env sb inode mask).1)) ∧
    ((mask.may_write || mask.may_append) = true →
      env.hperm inode.ibtop = 0 → special_file hn.ftype = false →
      (((aufs_permission env sb inode mask).1 = 0 ↔
        ∃ i, i ≤ inode.ibtop ∧ (sb.br i).rdonly = false) ∧
       ((aufs_permission env sb inode mask).1 = -EROFS ↔
        ∀ i, i ≤ inode.ibtop → (sb.br i).rdonly = true))) := by
  constructor
  · intro heq
    rw [aufs_permission_top_eq env sb inode mask hn hnb hcase hh hft,
      aufs_permission_top_eq env2 sb inode mask hn hnb hcase hh hft, heq]
  · intro hwm h0 hsp
    rw [aufs_permission_top_eq env sb inode mask hn hnb hcase hh hft]
    have hcond : ((mask.may_write || mask.may_append) &&
        (env.hperm inode.ibtop == 0) && !special_file hn.ftype) = true := by
      simp [hwm, h0, hsp]
    rw [if_pos hcond]
    exact ⟨upperWritable_zero_iff sb inode.ibtop,
      upperWritable_erofs_iff sb inode.ibtop⟩
theorem aufs_permission_top_only_w :
    (aufs_permission envPermOk sbPFix inodeRegFix maskWrite).1 = 0 :=
  ((((aufs_permission_top_only envPermOk envPermOk sbPFix inodeRegFix
    maskWrite ⟨FType.reg⟩ rfl (fun h => absurd h (by decide)) rfl
    rfl).2 rfl rfl rfl).1).mpr ⟨0, le_refl 0, rfl⟩)

/-- Claim C9: RCU-walk is always refused at the public interface:
`aufs_permission` returns `-ECHILD` whenever `MAY_NOT_BLOCK` is set and
`aufs_lookup` returns `-ECHILD` whenever `LOOKUP_RCU` is set, in both
cases with an empty lock/state trace (before taking any lock or reading
any union state). -/
theorem rcu_walk_refused (penv : PermEnv) (psb : PSb) (inode : AuInode)
    (mask : Mask) (lenv : LkEnv) (nameLen : Nat)
    (hm : mask.may_not_block = true) :
    aufs_permission penv psb inode mask = (-ECHILD, []) ∧
    aufs_lookup lenv true nameLen = (-ECHILD, []) := by
  constructor
  · simp [aufs_permission, hm]
  · simp [aufs_lookup]
theorem rcu_walk_refused_w :
    aufs_permission envPermOk sbPFix inodeDirFix maskNB = (-ECHILD, []) :=
  (rcu_walk_refused envPermOk sbPFix inodeDirFix maskNB lkEnvFix 1 rfl).1

/-- Claim C10: when the source filesystem reports no intrinsic
hard-link limit and the source inode's link count has reached the
`UINT_MAX >> 1` margin, `vfsub_link` returns `-EMLINK` without invoking
the security hook or the underlying link operation (empty action
trace). -/
theorem vfsub_link_nlink_margin (env : LinkEnv) (nlink : Nat)
    (h1 : env.noLimitNlink = true) (h2 : UINT_MAX >>> 1 ≤ nlink) :
    vfsub_link env nlink = (-EMLINK, []) := by
  have ht : au_test_nlink env nlink = -EMLINK := by
    unfold au_test_nlink
    rw [h1]
    simp [Nat.not_lt.mpr h2]
  unfold vfsub_link
  rw [ht]
  simp [EMLINK]
theorem vfsub_link_nlink_margin_w :
    vfsub_link linkEnvFix (UINT_MAX >>> 1) = (-EMLINK, []) :=
  vfsub_link_nlink_margin linkEnvFix (UINT_MAX >>> 1) rfl (Nat.le_refl _)

/-! ## Claim C4 -/

/-- Claim C4: every failing `au_do_pin` leaves each resource balanced —
the trace of the call releases every reference and lock it acquired —
and returns the busy/stale error; on success, running `au_unpin` on the
resulting pin record releases everything (the combined trace is
balanced), unlocking the locks in exactly the reverse of their
acquisition order and dropping the references in exactly the reverse of
their acquisition order (real-parent dir unlock first, then the mount
write lease, then the logical parent, then the references). -/
theorem au_do_pin_unwind (env : PinEnv) (fl : PinFlags) :
    ((au_do_pin env fl).1 ≠ 0 →
      pinBalanced (au_do_pin env fl).2.1 ∧
      (au_do_pin env fl).1 = au_busy_or_stale) ∧
    ((au_do_pin env fl).1 = 0 →
      pinBalanced ((au_do_pin env fl).2.1 ++
        au_unpin (au_do_pin env fl).2.2) ∧
      (au_unpin (au_do_pin env fl).2.2).filter pinActIsLock =
        ((au_do_pin env fl).2.1.filter pinActIsLock).reverse.map
          pinRelease ∧
      (au_unpin (au_do_pin env fl).2.2).filter (fun x => !pinActIsLock x) =
        ((au_do_pin env fl).2.1.filter
          (fun x => !pinActIsLock x)).reverse.map pinRelease) := by
  rcases env with ⟨a, b, c, d, e, f, g, h⟩
  rcases fl with ⟨m, l⟩
  cases a <;> cases b <;> cases c <;> cases d <;> cases e <;> cases f <;>
    cases g <;> cases h <;> cases m <;> cases l <;> decide
theorem au_do_pin_unwind_w :
    pinBalanced ((au_do_pin pinEnvFix pinFlagsFix).2.1 ++
      au_unpin (au_do_pin pinEnvFix pinFlagsFix).2.2) :=
  ((au_do_pin_unwind pinEnvFix pinFlagsFix).2 (by decide)).1

/-! ## Range-bookkeeping lemmas for claim C1 -/

theorem pairwise_head_le (a : Nat) (t : List Nat)
    (hp : (a :: t).Pairwise (fun x y => x < y)) (j : Nat)
    (hj : j ∈ a :: t) : a ≤ j := by
  rcases List.mem_cons.mp hj with he | hm
  · omega
  · have := (List.pairwise_cons.mp hp).1 j hm
    omega

theorem pairwise_le_getLastD : ∀ (t : List Nat) (a d j : Nat),
    (a :: t).Pairwise (fun x y => x < y) → j ∈ a :: t →
    j ≤ (a :: t).getLastD d := by
  intro t
  induction t with
  | nil =>
    intro a d j hp hj
    simp only [List.getLastD_cons, List.getLastD_nil]
    simp at hj
    omega
  | cons b t2 ih =>
    intro a d j hp hj
    rw [List.getLastD_cons]
    have hab : a < b := (List.pairwise_cons.mp hp).1 b (by simp)
    have hp2 := (List.pairwise_cons.mp hp).2
    rcases List.mem_cons.mp hj with he | hm
    · have hb := ih b a b hp2 (List.mem_cons_self b t2)
      rw [List.getLastD_cons] at hb ⊢
      omega
    · exact ih b a j hp2 hm

theorem au_update_dbrange_h (nbr : Nat) (d : Dentry) :
    (au_update_dbrange nbr d).h = d.h := by
  unfold au_update_dbrange
  split <;> rfl

theorem au_update_dbrange_positive (nbr : Nat) (d : Dentry) :
    (au_update_dbrange nbr d).positive = d.positive := by
  unfold au_update_dbrange
  split <;> rfl

theorem au_update_dbrange_bounds (nbr : Nat) (d : Dentry)
    (hb : ∀ j, (d.h j).isSome → j < nbr) :
    ∀ j, (d.h j).isSome →
      (au_update_dbrange nbr d).dbtop ≤ j ∧
      j ≤ (au_update_dbrange nbr d).dbbot := by
  intro j hj
  have hjin : j ∈ (List.range nbr).filter (fun i => (d.h i).isSome) :=
    List.mem_filter.mpr ⟨List.mem_range.mpr (hb j hj), hj⟩
  rcases hl : (List.range nbr).filter (fun i => (d.h i).isSome) with _ | ⟨a, t⟩
  · rw [hl] at hjin
    simp at hjin
  · have he : au_update_dbrange nbr d =
        { d with dbtop := a, dbbot := (a :: t).getLastD a } := by
      unfold au_update_dbrange
      rw [hl]
    rw [hl] at hjin
    have hpw : (a :: t).Pairwise (fun x y => x < y) := by
      rw [← hl]
      exact (List.pairwise_lt_range nbr).filter _
    rw [he]
    exact ⟨pairwise_head_le a t hpw j hjin,
      pairwise_le_getLastD t a a j hpw hjin⟩

theorem lkupNegPre_positive (bcpup btop : Nat) (d : Dentry) :
    (lkupNegPre bcpup btop d).positive = d.positive := by
  unfold lkupNegPre
  cases hp : d.positive <;> simp [hp]

theorem lkupNegPre_h_pos (bcpup btop : Nat) (d : Dentry)
    (hp : d.positive = true) :
    (lkupNegPre bcpup btop d).h = updf d.h bcpup (some ()) := by
  unfold lkupNegPre
  simp [hp]

theorem lkupNegPre_h_neg (bcpup btop : Nat) (d : Dentry)
    (hp : d.positive = false) :
    (lkupNegPre bcpup btop d).h =
      updf (updf d.h bcpup (some ())) btop none := by
  unfold lkupNegPre
  simp [hp]

theorem lkupNegPre_occupied (bcpup btop : Nat) (d : Dentry) (j : Nat)
    (hj : ((lkupNegPre bcpup btop d).h j).isSome) :
    j = bcpup ∨ (d.h j).isSome := by
  by_cases hp : d.positive = true
  · rw [lkupNegPre_h_pos bcpup btop d hp] at hj
    unfold updf at hj
    by_cases hjb : j = bcpup
    · exact Or.inl hjb
    · rw [if_neg hjb] at hj
      exact Or.inr hj
  · have hp' : d.positive = false := by simp_all
    rw [lkupNegPre_h_neg bcpup btop d hp'] at hj
    unfold updf at hj
    by_cases hjt : j = btop
    · rw [if_pos hjt] at hj
      simp at hj
    · rw [if_neg hjt] at hj
      by_cases hjb : j = bcpup
      · exact Or.inl hjb
      · rw [if_neg hjb] at hj
        exact Or.inr hj

theorem lkupNegPre_at_bcpup (bcpup btop : Nat) (d : Dentry)
    (hne : bcpup ≠ btop) :
    ((lkupNegPre bcpup btop d).h bcpup).isSome := by
  by_cases hp : d.positive = true
  · rw [lkupNegPre_h_pos bcpup btop d hp]
    simp [updf]
  · have hp' : d.positive = false := by simp_all
    rw [lkupNegPre_h_neg bcpup btop d hp']
    simp [updf, hne]

theorem au_wr_dir_tail_ok_dentry (env : WdEnv) (dbg : Bool) (nbr : Nat)
    (s : WdState) (a t : Bool) (bcpup btop : Nat) (tr : List WdEv) (i : Nat)
    (hok : (au_wr_dir_tail env dbg nbr s a t bcpup btop tr).1 = WdRes.ok i)
    (hne : ¬(bcpup = btop)) :
    (au_wr_dir_tail env dbg nbr s a t bcpup btop tr).2.1.dentry =
      wrDirFinalDentry nbr a t bcpup btop s.dentry := by
  unfold au_wr_dir_tail at hok ⊢
  rw [if_neg hne] at hok ⊢
  rcases hcp : au_wr_dir_cpup env nbr s (a || t) t bcpup btop with ⟨r, s1, tr1⟩
  cases r with
  | ok b =>
    have hb : (au_wr_dir_cpup env nbr s (a || t) t bcpup btop).1 =
        WdRes.ok b := by
      rw [hcp]
    have hsd := au_wr_dir_cpup_ok_dentry env nbr s (a || t) t bcpup btop b hb
    rw [hcp] at hsd
    simp only [apply_ite, ite_self]
    unfold wrDirFinalDentry
    rw [← hsd]
    cases hp : s1.dentry.positive <;> simp [hp]
  | err e =>
    rw [hcp] at hok
    simp at hok
  | bug =>
    rw [hcp] at hok
    simp at hok

theorem wrDirFinalDentry_mono (nbr : Nat) (a t : Bool) (bcpup : Nat)
    (d : Dentry) (hwf : DentryWF nbr d) (hbl : bcpup < d.dbtop) :
    (wrDirFinalDentry nbr a t bcpup d.dbtop d).dbtop ≤ d.dbtop ∧
    ∀ j, ((wrDirFinalDentry nbr a t bcpup d.dbtop d).h j).isSome →
      (wrDirFinalDentry nbr a t bcpup d.dbtop d).dbtop ≤ j ∧
      j ≤ (wrDirFinalDentry nbr a t bcpup d.dbtop d).dbbot := by
  rcases hwf with ⟨hw1, hw2, hw3, hw4⟩
  have hbc : bcpup < nbr := by omega
  have hb : ∀ j, (d.h j).isSome → j < nbr := by
    intro j hj
    have := hw3 j hj
    omega
  have hne : bcpup ≠ d.dbtop := by omega
  have hpreb : ∀ j, ((lkupNegPre bcpup d.dbtop d).h j).isSome → j < nbr := by
    intro j hj
    rcases lkupNegPre_occupied bcpup d.dbtop d j hj with he | hs
    · omega
    · exact hb j hs
  have hbounds : ∀ j, ((lkupNegPre bcpup d.dbtop d).h j).isSome →
      (lkupNegDentry nbr bcpup d.dbtop d).dbtop ≤ j ∧
      j ≤ (lkupNegDentry nbr bcpup d.dbtop d).dbbot := by
    intro j hj
    exact au_update_dbrange_bounds nbr (lkupNegPre bcpup d.dbtop d) hpreb j hj
  have hlh : (lkupNegDentry nbr bcpup d.dbtop d).h =
      (lkupNegPre bcpup d.dbtop d).h := by
    unfold lkupNegDentry
    exact au_update_dbrange_h nbr (lkupNegPre bcpup d.dbtop d)
  have hlp : (lkupNegDentry nbr bcpup d.dbtop d).positive = d.positive := by
    unfold lkupNegDentry
    rw [au_update_dbrange_positive]
    exact lkupNegPre_positive bcpup d.dbtop d
  by_cases hat : ((a || t) && !t) = true
  · by_cases hp : d.positive = true
    · have hfinal : wrDirFinalDentry nbr a t bcpup d.dbtop d =
          lkupNegDentry nbr bcpup d.dbtop d := by
        unfold wrDirFinalDentry
        simp [hat, hlp, hp]
      rw [hfinal]
      have htop : (lkupNegDentry nbr bcpup d.dbtop d).dbtop ≤ bcpup :=
        (hbounds bcpup (lkupNegPre_at_bcpup bcpup d.dbtop d hne)).1
      constructor
      · omega
      · intro j hj
        rw [hlh] at hj
        exact hbounds j hj
    · have hp' : d.positive = false := by simp_all
      have hfinal : wrDirFinalDentry nbr a t bcpup d.dbtop d =
          { lkupNegDentry nbr bcpup d.dbtop d with
            h := updf (lkupNegDentry nbr bcpup d.dbtop d).h d.dbtop none,
            dbtop := bcpup, dbbot := bcpup } := by
        unfold wrDirFinalDentry
        simp [hat, hlp, hp']
      rw [hfinal]
      constructor
      · show bcpup ≤ d.dbtop
        omega
      · intro j hj
        simp only [updf, hlh] at hj
        by_cases hjt : j = d.dbtop
        · rw [if_pos hjt] at hj
          simp at hj
        · rw [if_neg hjt] at hj
          rcases lkupNegPre_occupied bcpup d.dbtop d j hj with he | hs
          · constructor
            · show bcpup ≤ j
              omega
            · show j ≤ bcpup
              omega
          · exact absurd (hw4 hp' j hs) hjt
  · have hat' : ((a || t) && !t) = false := by simp_all
    by_cases hp : d.positive = true
    · have hfinal : wrDirFinalDentry nbr a t bcpup d.dbtop d = d := by
        unfold wrDirFinalDentry
        simp [hat', hp]
      rw [hfinal]
      exact ⟨le_refl _, fun j hj => hw3 j hj⟩
    · have hp' : d.positive = false := by simp_all
      have hfinal : wrDirFinalDentry nbr a t bcpup d.dbtop d =
          { d with
            h := updf d.h d.dbtop none,
            dbtop := bcpup, dbbot := bcpup } := by
        unfold wrDirFinalDentry
        simp [hat', hp']
      rw [hfinal]
      constructor
      · show bcpup ≤ d.dbtop
        omega
      · intro j hj
        simp only [updf] at hj
        by_cases hjt : j = d.dbtop
        · rw [if_pos hjt] at hj
          simp at hj
        · rw [if_neg hjt] at hj
          exact absurd (hw4 hp' j hj) hjt

theorem au_wr_dir_shape (env : WdEnv) (dbg : Bool) (sb : SbW) (s : WdState)
    (src : Option Nat) (args : WrDirArgs) :
    (∃ e, (au_wr_dir env dbg sb s src args).1 = WdRes.err e) ∨
    (au_wr_dir env dbg sb s src args).1 = WdRes.bug ∨
    (∃ bcpup tr0, au_wr_dir env dbg sb s src args =
      au_wr_dir_tail env dbg sb.nbr s args.add_entry args.tmpfile bcpup
        s.dentry.dbtop tr0) := by
  rcases hf : args.force_btgt with _ | b
  · by_cases h1 : ((decide ((au_wr_dir_candidate env src
        (args.add_entry || args.tmpfile) s.dentry.dbtop).1 < 0)) ||
        au_test_ro sb (au_wr_dir_candidate env src
          (args.add_entry || args.tmpfile) s.dentry.dbtop).1.toNat) = true
    · by_cases h2 : env.wbrCopyup < 0
      · left
        refine ⟨env.wbrCopyup, ?_⟩
        simp [au_wr_dir, hf, h1, h2]
      · right; right
        refine ⟨env.wbrCopyup.toNat, (au_wr_dir_candidate env src
          (args.add_entry || args.tmpfile) s.dentry.dbtop).2 ++
          [WdEv.evWbrCopyup], ?_⟩
        simp [au_wr_dir, hf, h1, h2]
    · right; right
      refine ⟨(au_wr_dir_candidate env src
        (args.add_entry || args.tmpfile) s.dentry.dbtop).1.toNat,
        (au_wr_dir_candidate env src
          (args.add_entry || args.tmpfile) s.dentry.dbtop).2, ?_⟩
      simp [au_wr_dir, hf, h1]
  · by_cases hro : (dbg && au_test_ro sb b) = true
    · right; left
      simp [au_wr_dir, hf, hro]
    · right; right
      refine ⟨b, [], ?_⟩
      simp [au_wr_dir, hf, hro]

theorem au_wr_dir_tail_mono (env : WdEnv) (dbg : Bool) (nbr : Nat)
    (s : WdState) (a t : Bool) (bcpup : Nat) (tr : List WdEv) (i : Nat)
    (hwf : DentryWF nbr s.dentry)
    (hok : (au_wr_dir_tail env dbg nbr s a t bcpup s.dentry.dbtop tr).1 =
      WdRes.ok i)
    (hup : i < s.dentry.dbtop) :
    (au_wr_dir_tail env dbg nbr s a t bcpup
      s.dentry.dbtop tr).2.1.dentry.dbtop ≤ s.dentry.dbtop ∧
    ∀ j, ((au_wr_dir_tail env dbg nbr s a t bcpup
        s.dentry.dbtop tr).2.1.dentry.h j).isSome →
      (au_wr_dir_tail env dbg nbr s a t bcpup
        s.dentry.dbtop tr).2.1.dentry.dbtop ≤ j ∧
      j ≤ (au_wr_dir_tail env dbg nbr s a t bcpup
        s.dentry.dbtop tr).2.1.dentry.dbbot := by
  have hi := au_wr_dir_tail_ok env dbg nbr s a t bcpup s.dentry.dbtop tr i hok
  have hbl : bcpup < s.dentry.dbtop := by omega
  have hne : ¬(bcpup = s.dentry.dbtop) := by omega
  have hd := au_wr_dir_tail_ok_dentry env dbg nbr s a t bcpup
    s.dentry.dbtop tr i hok hne
  rw [hd]
  exact wrDirFinalDentry_mono nbr a t bcpup s.dentry hwf hbl

/-- Claim C1, counterexample to the claim as stated: a successful
`au_wr_dir` with a chosen branch different from the previous top
(a round-robin-style create policy picking the deeper writable branch 1
for a negative dentry whose top is 0) leaves the entry's branch-range
top at 1, strictly greater than the previous top 0. -/
theorem au_wr_dir_range_mono_cex :
    (au_wr_dir envFix true sbFix sFix none argsAdd).1 = WdRes.ok 1 ∧
    sFix.dentry.dbtop = 0 ∧
    (au_wr_dir envFix true sbFix sFix none argsAdd).2.1.dentry.dbtop = 1 ∧
    ¬((au_wr_dir envFix true sbFix sFix none argsAdd).2.1.dentry.dbtop ≤
      sFix.dentry.dbtop) := by
  decide

/-- Claim C1 (amended): for every successful `au_wr_dir` whose resolved
branch lies strictly above the entry's previous topmost branch
(`i < dbtop`, the copy-up direction), given well-formed branch-range
bookkeeping, the entry's branch-range top afterwards is at most the
previous top, and the resulting range brackets every branch slot the
entry still occupies. -/
theorem au_wr_dir_range_mono (env : WdEnv) (dbg : Bool) (sb : SbW)
    (s : WdState) (src : Option Nat) (args : WrDirArgs) (i : Nat)
    (hwf : DentryWF sb.nbr s.dentry)
    (hok : (au_wr_dir env dbg sb s src args).1 = WdRes.ok i)
    (hup : i < s.dentry.dbtop) :
    (au_wr_dir env dbg sb s src args).2.1.dentry.dbtop ≤ s.dentry.dbtop ∧
    ∀ j, ((au_wr_dir env dbg sb s src args).2.1.dentry.h j).isSome →
      (au_wr_dir env dbg sb s src args).2.1.dentry.dbtop ≤ j ∧
      j ≤ (au_wr_dir env dbg sb s src args).2.1.dentry.dbbot := by
  rcases au_wr_dir_shape env dbg sb s src args with
    ⟨e, he⟩ | hbug | ⟨bcpup, tr0, heq⟩
  · rw [he] at hok
    simp at hok
  · rw [hbug] at hok
    simp at hok
  · rw [heq] at hok ⊢
    exact au_wr_dir_tail_mono env dbg sb.nbr s args.add_entry args.tmpfile
      bcpup tr0 i hwf hok hup
theorem au_wr_dir_range_mono_w :
    (au_wr_dir envFix0 true sbFix sFixDeep none argsAdd).2.1.dentry.dbtop ≤
      sFixDeep.dentry.dbtop :=
  (au_wr_dir_range_mono envFix0 true sbFix sFixDeep none argsAdd 0
    (by
      refine ⟨by decide, by decide, ?_, ?_⟩
      · intro j hj
        by_cases h1 : j = 1
        · subst h1
          exact ⟨by decide, by decide⟩
        · exfalso
          have hn : sFixDeep.dentry.h j = none := by
            simp [sFixDeep, dFixDeep, h1]
          rw [hn] at hj
          simp at hj
      · intro _ j hj
        by_cases h1 : j = 1
        · simp [sFixDeep, dFixDeep, h1]
        · exfalso
          have hn : sFixDeep.dentry.h j = none := by
            simp [sFixDeep, dFixDeep, h1]
          rw [hn] at hj
          simp at hj)
    (by decide) (by decide)).1
